import Mathlib

/-!
Verification of the WAVEmbedder core algorithms: a shallow embedding of
`src/embed.py` (RIFF INFO chunk builder and WAV splicer), `src/metadata.py`
(positional spreadsheet decoder) and the metadata match loops of
`src/main.py`, together with theorems settling the specification claims.

Bytes are modelled as `Nat` (every byte produced or consumed by the code is
`< 256`; the arithmetic is stated exactly as the source computes it).
-/

namespace WavEmbedder

/-- Little-endian decoding of a byte list, as Python's
`int.from_bytes(bs, "little")`: `Σ bs[i] * 256^i`. -/
def leDecode (bs : List Nat) : Nat :=
  bs.foldr (fun b acc => b + 256 * acc) 0

/-- Little-endian encoding of `n` on `k` bytes, as Python's
`n.to_bytes(k, "little")`.  Python raises `OverflowError` when `n ≥ 256^k`;
this model truncates instead, so it coincides with the source exactly
when `n < 256^k` (theorems carry that bound where it matters). -/
def leEncode (n : Nat) : Nat → List Nat
  | 0 => []
  | k + 1 => n % 256 :: leEncode (n / 256) k

/-- UTF-8 encoding of one Unicode scalar value, as produced by Python's
`str.encode("utf-8")` for each character. -/
def utf8Char (c : Char) : List Nat :=
  let n := c.toNat
  if n < 0x80 then [n]
  else if n < 0x800 then [0xC0 + n / 64, 0x80 + n % 64]
  else if n < 0x10000 then
    [0xE0 + n / 4096, 0x80 + (n / 64) % 64, 0x80 + n % 64]
  else
    [0xF0 + n / 262144, 0x80 + (n / 4096) % 64, 0x80 + (n / 64) % 64,
     0x80 + n % 64]

/-- Encoding `value.encode("utf-8")` on a whole string.  For the pure-ASCII tag
strings this coincides with `tag.encode("ascii")`. -/
def utf8Encode (s : String) : List Nat :=
  (s.data.map utf8Char).flatten

/-- Model of `encode_riff_info(tag, value)` from `src/embed.py` lines 8-14:
UTF-8 encode the value, append one `0x00` byte when the encoded length is
odd, then emit `tag + size.to_bytes(4, "little") + value_bytes` — where
`size` is taken AFTER the padding step. -/
def encodeRiffInfo (tag value : String) : List Nat :=
  let valueBytes := utf8Encode value
  let valueBytes :=
    if valueBytes.length % 2 == 1 then valueBytes ++ [0] else valueBytes
  let size := valueBytes.length
  utf8Encode tag ++ leEncode size 4 ++ valueBytes

/-- The metadata mapping passed to `add_riff_metadata`: the six keys the
function looks up, `none` modelling an absent key. -/
structure MetadataDict where
  trackTitle : Option String
  composers : Option String
  sourceProgram : Option String
  bpm : Option String
  key : Option String
  publishers : Option String
deriving DecidableEq

/-- The `comments` list of `src/embed.py` lines 24-30: `"Label: value"`
strings appended in the fixed order BPM, Key, Publishers, for the keys
present in the mapping. -/
def riffComments (m : MetadataDict) : List String :=
  (match m.bpm with
   | some v => ["BPM: " ++ v]
   | none => []) ++
  (match m.key with
   | some v => ["Key: " ++ v]
   | none => []) ++
  (match m.publishers with
   | some v => ["Publishers: " ++ v]
   | none => [])

/-- The `metadata_bytes` value of `src/embed.py` lines 17-33: one `encode_riff_info`
entry per present key (INAM, IART, IALB in that order), then an ICMT entry
holding `" | ".join(comments)` when `comments` is non-empty. -/
def riffMetadataBytes (m : MetadataDict) : List Nat :=
  (match m.trackTitle with
   | some v => encodeRiffInfo "INAM" v
   | none => []) ++
  (match m.composers with
   | some v => encodeRiffInfo "IART" v
   | none => []) ++
  (match m.sourceProgram with
   | some v => encodeRiffInfo "IALB" v
   | none => []) ++
  (match riffComments m with
   | [] => []
   | cs => encodeRiffInfo "ICMT" (String.intercalate " | " cs))

/-- The LIST chunk of `src/embed.py` lines 36-38:
`b"LIST" + size.to_bytes(4, "little") + b"INFO" + metadata_bytes` with
`size = len(b"INFO" + metadata_bytes)`. -/
def riffListChunk (m : MetadataDict) : List Nat :=
  let listChunkData := utf8Encode "INFO" ++ riffMetadataBytes m
  let listChunkSize := listChunkData.length
  utf8Encode "LIST" ++ leEncode listChunkSize 4 ++ listChunkData

/-- Bytes of `b"RIFF"`. -/
def riffTag : List Nat := [82, 73, 70, 70]

/-- Bytes of `b"WAVE"`. -/
def waveTag : List Nat := [87, 65, 86, 69]

/-- Bytes of `b"fmt "`. -/
def fmtTag : List Nat := [102, 109, 116, 32]

/-- The chunk-scanning loop of `src/embed.py` lines 49-57, with an explicit
fuel argument so that the definition is structural (the kernel can run it).
Each iteration requires `pos + 8 ≤ len` and advances `pos` by at least 8,
so `wav.length` iterations always suffice; `findFmtEnd_fuel` below proves
the fuel bound is irrelevant once large enough, i.e. this is exactly the
source's unbounded `while` loop. -/
def findFmtEndAux (wav : List Nat) : Nat → Nat → Option Nat
  | 0, _ => none
  | fuel + 1, pos =>
    if pos + 8 ≤ wav.length then
      let chunkId := (wav.drop pos).take 4
      let chunkSize := leDecode ((wav.drop (pos + 4)).take 4)
      if chunkId = fmtTag then some (pos + 8 + chunkSize)
      else findFmtEndAux wav fuel (pos + 8 + chunkSize)
    else none

/-- The scan of `src/embed.py` lines 49-57: starting at offset 12, find the
end offset `pos + 8 + size` of the `"fmt "` chunk, `none` when the loop
runs off the end of the buffer. -/
def findFmtEnd (wav : List Nat) : Option Nat :=
  findFmtEndAux wav (wav.length + 1) 12

/-- The two failure modes of `add_riff_metadata`
(`RuntimeError("Not a valid WAV file.")` and
`RuntimeError("No 'fmt ' chunk found.")`). -/
inductive SpliceError where
  | invalidFormat : SpliceError
  | missingChunk : SpliceError
deriving DecidableEq

/-- The splice of `src/embed.py` lines 44-62: validate the RIFF/WAVE
header, locate the end of the `"fmt "` chunk, and insert the given chunk
bytes right there.  Pure transform on the byte buffer (the file I/O around
it is the caller's concern). -/
def spliceChunk (wav chunk : List Nat) : Except SpliceError (List Nat) :=
  if wav.take 4 = riffTag ∧ (wav.drop 8).take 4 = waveTag then
    match findFmtEnd wav with
    | some fmtEnd => .ok (wav.take fmtEnd ++ chunk ++ wav.drop fmtEnd)
    | none => .error .missingChunk
  else .error .invalidFormat

/-- Once the fuel covers the worst case (`pos` grows by at least 8 per
step while the loop runs only up to `wav.length`), adding more fuel does
not change the scan's answer: the fuelled function computes the source's
unbounded loop. -/
theorem findFmtEndAux_fuel (wav : List Nat) :
    ∀ fuel pos, wav.length < pos + 8 * fuel + 8 →
      findFmtEndAux wav (fuel + 1) pos = findFmtEndAux wav fuel pos := by
  intro fuel
  induction fuel with
  | zero =>
    intro pos h
    simp only [findFmtEndAux]
    have : ¬ (pos + 8 ≤ wav.length) := by omega
    simp [this]
  | succ f ih =>
    intro pos h
    rw [findFmtEndAux, findFmtEndAux]
    by_cases hle : pos + 8 ≤ wav.length
    · simp only [hle, if_true]
      by_cases hid : (wav.drop pos).take 4 = fmtTag
      · simp [hid]
      · simp only [hid, if_neg, ite_false]
        exact ih (pos + 8 + leDecode ((wav.drop (pos + 4)).take 4)) (by omega)
    · simp [hle]

/-- A successful scan that started at `pos` returns an offset at least
`pos + 8` (the found chunk's header lies beyond `pos`). -/
theorem findFmtEndAux_ge (wav : List Nat) :
    ∀ fuel pos e, findFmtEndAux wav fuel pos = some e → pos + 8 ≤ e := by
  intro fuel
  induction fuel with
  | zero => intro pos e h; simp [findFmtEndAux] at h
  | succ f ih =>
    intro pos e h
    rw [findFmtEndAux] at h
    by_cases hle : pos + 8 ≤ wav.length
    · simp only [hle, if_true] at h
      by_cases hid : (wav.drop pos).take 4 = fmtTag
      · simp only [hid, if_true, Option.some.injEq] at h
        omega
      · simp only [hid, ite_false] at h
        have := ih _ _ h
        omega
    · simp [hle] at h

/-- A successful scan returns an offset of at least 20 (it starts at 12). -/
theorem findFmtEnd_ge (wav : List Nat) (e : Nat)
    (h : findFmtEnd wav = some e) : 20 ≤ e := by
  have := findFmtEndAux_ge wav (wav.length + 1) 12 e h
  omega

/-- Python's `str.strip()`: drop leading and trailing whitespace.
(Python also strips a few rarer control characters; on the ASCII
whitespace actually occurring in spreadsheet cells the two agree.) -/
def pyStrip (s : String) : String :=
  ⟨((s.data.dropWhile Char.isWhitespace).reverse.dropWhile
      Char.isWhitespace).reverse⟩

/-- Python's `str.lower()`, character by character.  `Char.toLower` maps
the ASCII range exactly as Python does (Python additionally lowers
non-ASCII letters). -/
def pyLower (s : String) : String := ⟨s.data.map Char.toLower⟩

/-- A spreadsheet cell: `none` models Python `None` (empty Excel cell),
`some s` the cell's string rendering (`str(value)`). -/
abbrev Cell := Option String

/-- Model of `_safe_get(row, index)` from `src/metadata.py` lines 196-202:
`str(value).strip()` when the cell exists and is not `None`, else `''`
(out-of-range access yields the default). -/
def safeGet (row : List Cell) (index : Nat) : String :=
  match row.get? index with
  | some (some v) => pyStrip v
  | some none => ""
  | none => ""

/-- Model of `_format_writer` from `src/metadata.py` lines 161-177: `None` when
first, middle and last name are all empty; otherwise the space-join of the
stripped non-empty-name join, then `(PRO)`, `[CAE]`, `Share%`, each added
only when its field is non-empty. -/
def formatWriter (first middle last pro cae share : String) : Option String :=
  if first = "" ∧ middle = "" ∧ last = "" then none
  else
    let name :=
      pyStrip (String.intercalate " " ([first, middle, last].filter (fun s => s ≠ "")))
    let components :=
      [name] ++
      (if pro ≠ "" then ["(" ++ pro ++ ")"] else []) ++
      (if cae ≠ "" then ["[" ++ cae ++ "]"] else []) ++
      (if share ≠ "" then [share ++ "%"] else [])
    some (String.intercalate " " components)

/-- Model of `_format_publisher` from `src/metadata.py` lines 180-193: `None` when
the name is empty; otherwise the space-join of name, `(PRO)`, `[CAE]`,
`Share%`, each optional component added only when its field is
non-empty. -/
def formatPublisher (name pro cae share : String) : Option String :=
  if name = "" then none
  else
    let components :=
      [name] ++
      (if pro ≠ "" then ["(" ++ pro ++ ")"] else []) ++
      (if cae ≠ "" then ["[" ++ cae ++ "]"] else []) ++
      (if share ≠ "" then [share ++ "%"] else [])
    some (String.intercalate " " components)

/-- The loop body of `_parse_writers`lines 122-137 (`i` is the group
counter, `count` the remaining iterations, 5 at the top call): group `i`
reads six cells at `start_idx + i*10 .. +5`, breaks once
`offset + 5 >= len(row)`, and collects the non-`None` formatted writers. -/
def writersLoop (row : List Cell) (startIdx : Nat) : Nat → Nat → List String
  | _, 0 => []
  | i, count + 1 =>
    let offset := startIdx + i * 10
    if offset + 5 ≥ row.length then []
    else
      match formatWriter (safeGet row offset) (safeGet row (offset + 1))
          (safeGet row (offset + 2)) (safeGet row (offset + 3))
          (safeGet row (offset + 4)) (safeGet row (offset + 5)) with
      | some w => w :: writersLoop row startIdx (i + 1) count
      | none => writersLoop row startIdx (i + 1) count

/-- Model of `_parse_writers(row, start_idx)` from `src/metadata.py` lines 120-139. -/
def parseWriters (row : List Cell) (startIdx : Nat) : List String :=
  writersLoop row startIdx 0 5

/-- The loop body of `_parse_publishers` lines 144-156: group `i` reads
four cells at `start_idx + i*10 .. +3`, breaks once
`offset + 3 >= len(row)`. -/
def publishersLoop (row : List Cell) (startIdx : Nat) : Nat → Nat → List String
  | _, 0 => []
  | i, count + 1 =>
    let offset := startIdx + i * 10
    if offset + 3 ≥ row.length then []
    else
      match formatPublisher (safeGet row offset) (safeGet row (offset + 1))
          (safeGet row (offset + 2)) (safeGet row (offset + 3)) with
      | some p => p :: publishersLoop row startIdx (i + 1) count
      | none => publishersLoop row startIdx (i + 1) count

/-- Model of `_parse_publishers(row, start_idx)` from `src/metadata.py` lines 141-158. -/
def parsePublishers (row : List Cell) (startIdx : Nat) : List String :=
  publishersLoop row startIdx 0 5

/-- The `TrackMetadata` dataclass of `src/metadata.py` lines 9-17. -/
structure TrackMetadata where
  filename_from_data : String
  track_title : String
  source_program : String
  bpm : String
  key : String
  writers : List String
  publishers : List String
deriving DecidableEq

/-- The record built for one accepted row (`src/metadata.py` lines 45-53
and, identically, lines 90-98). -/
def parseRow (row : List Cell) : TrackMetadata :=
  { filename_from_data := safeGet row 0
    track_title := safeGet row 1
    source_program := safeGet row 2
    bpm := safeGet row 4
    key := safeGet row 5
    writers := parseWriters row 12
    publishers := parsePublishers row 18 }

/-- The shared row loop of `_parse_excel` (lines 40-64) and `_parse_csv`
(lines 85-109): a row with fewer than 34 cells is skipped (`continue`),
every other row contributes its `TrackMetadata` in order. -/
def parseRowsLoop : List (List Cell) → List TrackMetadata
  | [] => []
  | row :: rest =>
    if row.length < 34 then parseRowsLoop rest
    else parseRow row :: parseRowsLoop rest

/-- Model of `_parse_excel` from `src/metadata.py` lines 29-72: every sheet's rows
are processed by the row loop (no header skip), results accumulated across
sheets in order. -/
def parseExcel (sheets : List (List (List Cell))) : List TrackMetadata :=
  (sheets.map parseRowsLoop).flatten

/-- Model of `_parse_csv` from `src/metadata.py` lines 75-117: `next(reader)` skips
the header row, then the same row loop runs. -/
def parseCsv (rows : List (List Cell)) : List TrackMetadata :=
  parseRowsLoop (rows.drop 1)

/-- Python's substring test `pat in s` on character lists: `pat` is a
prefix of some suffix of `s` (the empty pattern matches everything). -/
def isSubstr (pat : List Char) : List Char → Bool
  | [] => pat.isEmpty
  | c :: rest => pat.isPrefixOf (c :: rest) || isSubstr pat rest

/-- The metadata fields of one table entry in `src/main.py`
(`"Filename From Data"`, `"Track Title"`, ..., `"Publishers"`). -/
structure EntryMeta where
  filenameFromData : String
  trackTitle : String
  sourceProgram : String
  bpm : String
  key : String
  composers : String
  publishers : String
deriving DecidableEq

/-- The `new_entry.update({...})` of `src/main.py` lines 134-141: copy the
six metadata fields out of the matched record (composers and publishers
joined with `", "`). -/
def updateFromRecord (e : EntryMeta) (m : TrackMetadata) : EntryMeta :=
  { e with
    trackTitle := m.track_title
    sourceProgram := m.source_program
    bpm := m.bpm
    key := m.key
    composers := String.intercalate ", " m.writers
    publishers := String.intercalate ", " m.publishers }

/-- The title-pattern match loop of `src/main.py` lines 131-142: walk the
records, and on the first whose lower-cased `track_title` plus `"_"`
occurs in the (already lower-cased) filename, update the entry and break. -/
def titleLoop (fname : List Char) : List TrackMetadata → EntryMeta → EntryMeta
  | [], e => e
  | m :: rest, e =>
    if isSubstr ((pyLower m.track_title) ++ "_").data fname then
      updateFromRecord e m
    else titleLoop fname rest e

/-- The filename match loop of `src/main.py` lines 145-148: walk the
records, and on the first whose lower-cased `filename_from_data` occurs in
the filename, set that single field and break. -/
def fnameLoop (fname : List Char) : List TrackMetadata → EntryMeta → EntryMeta
  | [], e => e
  | m :: rest, e =>
    if isSubstr (pyLower m.filename_from_data).data fname then
      { e with filenameFromData := m.filename_from_data }
    else fnameLoop fname rest e

/-- The per-file body of `src/main.py` lines 116-150: lower-case the
audio filename, reset the six metadata fields (`"Filename From Data"` is
NOT reset), run the title-pattern loop, then the independent
filename-from-data loop. -/
def applyMetadata (records : List TrackMetadata) (prev : EntryMeta)
    (audioFilename : String) : EntryMeta :=
  let fname := (pyLower audioFilename).data
  let e0 := { prev with
    trackTitle := "", sourceProgram := "", bpm := "", key := ""
    composers := "", publishers := "" }
  let e1 := titleLoop fname records e0
  fnameLoop fname records e1

theorem leEncode_length (k : Nat) : ∀ n, (leEncode n k).length = k := by
  induction k with
  | zero => intro n; rfl
  | succ k ih => intro n; simp [leEncode, ih]

theorem leDecode_leEncode (k : Nat) :
    ∀ n, leDecode (leEncode n k) = n % 256 ^ k := by
  induction k with
  | zero => intro n; simp [leEncode, leDecode, Nat.mod_one]
  | succ k ih =>
    intro n
    have h : (256 : Nat) ^ (k + 1) = 256 * 256 ^ k := by ring
    rw [h, Nat.mod_mul]
    simp only [leEncode, leDecode, List.foldr_cons]
    rw [show List.foldr (fun b acc => b + 256 * acc) 0 (leEncode (n / 256) k)
          = leDecode (leEncode (n / 256) k) from rfl, ih]

/-- Extracting the 4-byte size field that follows a 4-byte tag. -/
theorem sizeField_extract (a b c : List Nat) (ha : a.length = 4)
    (hb : b.length = 4) : ((a ++ (b ++ c)).drop 4).take 4 = b := by
  rw [List.drop_append_of_le_length (by omega),
    List.drop_eq_nil_iff.mpr (by omega), List.nil_append,
    List.take_append_of_le_length (by omega), List.take_of_length_le (by omega)]

theorem utf8Encode_INAM_length : (utf8Encode "INAM").length = 4 := by decide

/-- C1, counterexample: for tag `"INAM"` and value `"A"` (one UTF-8 byte,
odd), the declared size field of the produced entry decodes to 2, not to
the value's unpadded byte length 1 — `encode_riff_info` measures `size`
AFTER appending the pad byte. -/
theorem encodeRiffInfo_size_counterexample :
    (utf8Encode "A").length = 1 ∧
    leDecode (((encodeRiffInfo "INAM" "A").drop 4).take 4) = 2 ∧
    ¬ leDecode (((encodeRiffInfo "INAM" "A").drop 4).take 4) =
        (utf8Encode "A").length := by
  refine ⟨by decide, by decide, by decide⟩

/-- C1, amended: every RIFF INFO entry UTF-8 encodes its value and appends
one `0x00` pad byte when the encoded length is odd, but the 4-byte
little-endian declared size field equals the value's byte length WITH the
pad byte included (`len + len % 2`), because the source computes `size`
after padding. -/
theorem encodeRiffInfo_size (tag value : String)
    (htag : (utf8Encode tag).length = 4)
    (hfit : (utf8Encode value).length + 1 < 2 ^ 32) :
    encodeRiffInfo tag value =
      utf8Encode tag ++
        (leEncode ((utf8Encode value).length + (utf8Encode value).length % 2) 4 ++
          (utf8Encode value ++
            (if (utf8Encode value).length % 2 = 1 then [0] else []))) ∧
    leDecode (((encodeRiffInfo tag value).drop 4).take 4) =
      (utf8Encode value).length + (utf8Encode value).length % 2 := by
  have hlen256 : (256 : Nat) ^ 4 = 2 ^ 32 := by norm_num
  have heq : encodeRiffInfo tag value =
      utf8Encode tag ++
        (leEncode ((utf8Encode value).length + (utf8Encode value).length % 2) 4 ++
          (utf8Encode value ++
            (if (utf8Encode value).length % 2 = 1 then [0] else []))) := by
    unfold encodeRiffInfo
    by_cases hodd : (utf8Encode value).length % 2 = 1
    · simp [hodd]
    · have h0 : (utf8Encode value).length % 2 = 0 := by omega
      simp [h0]
  refine ⟨heq, ?_⟩
  rw [heq, sizeField_extract _ _ _ htag (leEncode_length 4 _),
    leDecode_leEncode, hlen256, Nat.mod_eq_of_lt (by omega)]

/-- Witness for `encodeRiffInfo_size` at tag `"INAM"`, value `"AB"`. -/
theorem encodeRiffInfo_size_witness :
    encodeRiffInfo "INAM" "AB" =
      utf8Encode "INAM" ++
        (leEncode ((utf8Encode "AB").length + (utf8Encode "AB").length % 2) 4 ++
          (utf8Encode "AB" ++
            (if (utf8Encode "AB").length % 2 = 1 then [0] else []))) ∧
    leDecode (((encodeRiffInfo "INAM" "AB").drop 4).take 4) =
      (utf8Encode "AB").length + (utf8Encode "AB").length % 2 :=
  encodeRiffInfo_size "INAM" "AB" (by decide) (by decide)

/-- C2, counterexample: for a mapping whose `"Track Title"` key is present
with the EMPTY string as value, the builder still emits an INAM entry
(`b"INAM"` + size 0) — presence alone triggers emission, the claim's
"AND non-empty" condition is not checked by the code. -/
theorem riffMetadataBytes_empty_value_counterexample :
    riffMetadataBytes ⟨some "", none, none, none, none, none⟩ =
      [73, 78, 65, 77, 0, 0, 0, 0] ∧
    riffMetadataBytes ⟨some "", none, none, none, none, none⟩ ≠ [] := by
  refine ⟨by decide, by decide⟩

/-- C2, amended: an INAM / IART / IALB entry is emitted exactly when the
corresponding key (Track Title / Composers / Source Program) is PRESENT in
the mapping — emptiness of the value is not checked; the ICMT entry is
emitted exactly when at least one of BPM, Key, Publishers is present, its
value the `" | "`-join of the present `"Label: value"` strings in the
fixed order BPM, Key, Publishers. -/
theorem riffMetadataBytes_emission (m : MetadataDict) :
    riffMetadataBytes m =
      ([("INAM", m.trackTitle), ("IART", m.composers),
        ("IALB", m.sourceProgram)].filterMap
          (fun p => p.2.map (fun v => encodeRiffInfo p.1 v))).flatten ++
        (if riffComments m = [] then []
         else encodeRiffInfo "ICMT" (String.intercalate " | " (riffComments m))) ∧
    riffComments m =
      [("BPM: ", m.bpm), ("Key: ", m.key), ("Publishers: ", m.publishers)].filterMap
        (fun p => p.2.map (fun v => p.1 ++ v)) ∧
    (riffComments m = [] ↔ m.bpm = none ∧ m.key = none ∧ m.publishers = none) := by
  obtain ⟨t, c, s, b, k, p⟩ := m
  cases t <;> cases c <;> cases s <;> cases b <;> cases k <;> cases p <;>
    simp [riffMetadataBytes, riffComments]

theorem utf8Encode_LIST_length : (utf8Encode "LIST").length = 4 := by decide

theorem utf8Encode_INFO_length : (utf8Encode "INFO").length = 4 := by decide

/-- C6: for every metadata mapping (whose payload fits the 4-byte size
field, as any real one does), the built chunk starts with `b"LIST"` and
its 4-byte little-endian size field equals the chunk's total length minus
8, i.e. the exact byte length of its payload (`"INFO"` plus all entries,
pad bytes included). -/
theorem riffListChunk_header (m : MetadataDict)
    (hfit : (riffMetadataBytes m).length + 4 < 2 ^ 32) :
    (riffListChunk m).take 4 = utf8Encode "LIST" ∧
    leDecode (((riffListChunk m).drop 4).take 4) =
      (riffListChunk m).length - 8 := by
  have hlen256 : (256 : Nat) ^ 4 = 2 ^ 32 := by norm_num
  have h : riffListChunk m =
      utf8Encode "LIST" ++
        (leEncode (utf8Encode "INFO" ++ riffMetadataBytes m).length 4 ++
          (utf8Encode "INFO" ++ riffMetadataBytes m)) := by
    unfold riffListChunk
    rw [List.append_assoc]
  have hd : (utf8Encode "INFO" ++ riffMetadataBytes m).length =
      4 + (riffMetadataBytes m).length := by
    simp [utf8Encode_INFO_length]
  have hlen : (riffListChunk m).length =
      (utf8Encode "INFO" ++ riffMetadataBytes m).length + 8 := by
    rw [h]
    simp [utf8Encode_LIST_length, leEncode_length]
    omega
  constructor
  · rw [h, List.take_append_of_le_length (by rw [utf8Encode_LIST_length]),
      List.take_of_length_le (by rw [utf8Encode_LIST_length])]
  · rw [h, sizeField_extract _ _ _ utf8Encode_LIST_length (leEncode_length 4 _),
      leDecode_leEncode, hlen256, Nat.mod_eq_of_lt (by omega), ← h, hlen]
    omega

/-- Witness for `riffListChunk_header` at the empty mapping. -/
theorem riffListChunk_header_witness :
    (riffListChunk ⟨none, none, none, none, none, none⟩).take 4 =
      utf8Encode "LIST" ∧
    leDecode (((riffListChunk ⟨none, none, none, none, none, none⟩).drop 4).take 4) =
      (riffListChunk ⟨none, none, none, none, none, none⟩).length - 8 :=
  riffListChunk_header ⟨none, none, none, none, none, none⟩ (by decide)

/-- A WAV buffer whose first chunk `"JUNK"` has odd declared size 1 and is
followed — as in any real WAV — by one pad byte, then the `"fmt "` chunk
(size 0) at offset 22. -/
def oddChunkWav : List Nat :=
  riffTag ++ [0, 0, 0, 0] ++ waveTag ++
    [74, 85, 78, 75] ++ [1, 0, 0, 0] ++ [170] ++ [0] ++
    fmtTag ++ [0, 0, 0, 0]

/-- C3: the scan does NOT skip the pad byte of an odd-sized chunk — it
advances by `8 + size` only, so on `oddChunkWav` (odd `"JUNK"` chunk of
size 1 plus its pad byte, then a real `"fmt "` chunk at offset 22) it
desynchronizes and reports no `"fmt "` chunk at all, where the
pad-skipping scan described by the claim would find it. -/
theorem findFmtEnd_no_pad_skip :
    ((oddChunkWav.drop 12).take 4 ≠ fmtTag ∧
      leDecode ((oddChunkWav.drop 16).take 4) = 1 ∧
      (oddChunkWav.drop (12 + 8 + 1 + 1)).take 4 = fmtTag) ∧
    findFmtEndAux oddChunkWav (oddChunkWav.length + 1) (12 + 8 + 1) = none ∧
    findFmtEnd oddChunkWav = none ∧
    spliceChunk oddChunkWav [] = .error .missingChunk := by
  exact ⟨⟨by decide, by decide, by decide⟩, by decide, by decide, rfl⟩

/-- C4: whenever the header check passes and the scan finds `fmt_end`, the
splice returns exactly `wav[0:fmt_end] + chunk + wav[fmt_end:]`; bytes 4-8
(the outer RIFF size field) are not recomputed, every original byte before
`fmt_end` stays at its offset, and every original byte from `fmt_end` on
is shifted right by the inserted chunk's length. -/
theorem spliceChunk_result (wav chunk : List Nat) (fmtEnd : Nat)
    (hdr : wav.take 4 = riffTag ∧ (wav.drop 8).take 4 = waveTag)
    (hfind : findFmtEnd wav = some fmtEnd) :
    spliceChunk wav chunk =
      .ok (wav.take fmtEnd ++ chunk ++ wav.drop fmtEnd) ∧
    ((wav.take fmtEnd ++ chunk ++ wav.drop fmtEnd).drop 4).take 4 =
      (wav.drop 4).take 4 ∧
    (∀ i, i < fmtEnd → i < wav.length →
      (wav.take fmtEnd ++ chunk ++ wav.drop fmtEnd)[i]? = wav[i]?) ∧
    (∀ i, fmtEnd ≤ i → i < wav.length →
      (wav.take fmtEnd ++ chunk ++ wav.drop fmtEnd)[i + chunk.length]? =
        wav[i]?) := by
  have h12 : 12 ≤ wav.length := by
    have h := congrArg List.length hdr.2
    simp only [List.length_take, List.length_drop] at h
    have hw : waveTag.length = 4 := by decide
    rw [hw] at h
    omega
  have hge : 20 ≤ fmtEnd := findFmtEnd_ge wav fmtEnd hfind
  have hTakeLen : (wav.take fmtEnd).length = min fmtEnd wav.length := by
    simp
  refine ⟨?_, ?_, ?_, ?_⟩
  · simp [spliceChunk, hdr.1, hdr.2, hfind]
  · rw [List.drop_append_of_le_length (by simp; omega),
      List.drop_append_of_le_length (by simp; omega),
      List.take_append_of_le_length (by simp; omega),
      List.take_append_of_le_length (by simp; omega),
      List.drop_take, List.take_take]
    congr 1
    omega
  · intro i hi hiw
    rw [List.append_assoc, List.getElem?_append]
    have hlt : i < (wav.take fmtEnd).length := by simp; omega
    rw [if_pos hlt, List.getElem?_take, if_pos hi]
  · intro i hi hiw
    have hlen2 : (wav.take fmtEnd ++ chunk).length = fmtEnd + chunk.length := by
      simp
      omega
    rw [List.getElem?_append_right (by rw [hlen2]; omega), hlen2,
      List.getElem?_drop]
    congr 1
    omega

/-- A minimal valid WAV: `RIFF` header, then a `fmt ` chunk of size 2
ending at offset 22 (the end of the buffer). -/
def smallWav : List Nat :=
  riffTag ++ [0, 0, 0, 0] ++ waveTag ++ fmtTag ++ [2, 0, 0, 0] ++ [1, 2]

/-- Witness for `spliceChunk_result` on `smallWav` with chunk `[9, 9]`. -/
theorem spliceChunk_result_witness :
    spliceChunk smallWav [9, 9] =
      .ok (smallWav.take 22 ++ [9, 9] ++ smallWav.drop 22) :=
  (spliceChunk_result smallWav [9, 9] 22 ⟨by decide, by decide⟩ rfl).1

/-- C5: the splice fails with `InvalidFormat` exactly when the first four
bytes are not `"RIFF"` or bytes 8-12 are not `"WAVE"`; fails with
`MissingChunk` exactly when the header is fine but the chunk scan runs off
the end of the buffer without finding `"fmt "`; and succeeds in every
remaining case — there is no other error condition. -/
theorem spliceChunk_error_conditions (wav chunk : List Nat) :
    (spliceChunk wav chunk = .error .invalidFormat ↔
      ¬(wav.take 4 = riffTag ∧ (wav.drop 8).take 4 = waveTag)) ∧
    (spliceChunk wav chunk = .error .missingChunk ↔
      (wav.take 4 = riffTag ∧ (wav.drop 8).take 4 = waveTag) ∧
        findFmtEnd wav = none) ∧
    ((∃ out, spliceChunk wav chunk = .ok out) ↔
      (wav.take 4 = riffTag ∧ (wav.drop 8).take 4 = waveTag) ∧
        ∃ e, findFmtEnd wav = some e) := by
  unfold spliceChunk
  by_cases hdr : wav.take 4 = riffTag ∧ (wav.drop 8).take 4 = waveTag
  · cases hf : findFmtEnd wav <;> simp [hdr, hf]
  · simp [hdr]

theorem isSubstr_nil (s : List Char) : isSubstr [] s = true := by
  cases s <;> simp [isSubstr, List.isPrefixOf]

theorem isSubstr_singleton (c : Char) (s : List Char) :
    isSubstr [c] s = true ↔ c ∈ s := by
  induction s with
  | nil => simp [isSubstr]
  | cons d rest ih => simp [isSubstr, List.isPrefixOf, ih]

/-- The title-pattern loop returns what the FIRST matching record (in
record order) dictates, and leaves the entry untouched when no record
matches. -/
theorem titleLoop_eq_find (fname : List Char) (e : EntryMeta) :
    ∀ records : List TrackMetadata, titleLoop fname records e =
      match records.find? (fun m =>
          isSubstr ((pyLower m.track_title) ++ "_").data fname) with
      | some m => updateFromRecord e m
      | none => e := by
  intro records
  induction records with
  | nil => simp [titleLoop]
  | cons m rest ih =>
    have hstep : titleLoop fname (m :: rest) e =
        if isSubstr ((pyLower m.track_title) ++ "_").data fname then
          updateFromRecord e m
        else titleLoop fname rest e := rfl
    rw [hstep, List.find?_cons]
    cases isSubstr ((pyLower m.track_title) ++ "_").data fname
    · simpa using ih
    · simp

/-- The filename-from-data loop returns the FIRST matching record's field
and leaves the entry untouched when no record matches. -/
theorem fnameLoop_eq_find (fname : List Char) (e : EntryMeta) :
    ∀ records : List TrackMetadata, fnameLoop fname records e =
      match records.find? (fun m =>
          isSubstr (pyLower m.filename_from_data).data fname) with
      | some m => { e with filenameFromData := m.filename_from_data }
      | none => e := by
  intro records
  induction records with
  | nil => simp [fnameLoop]
  | cons m rest ih =>
    have hstep : fnameLoop fname (m :: rest) e =
        if isSubstr (pyLower m.filename_from_data).data fname then
          { e with filenameFromData := m.filename_from_data }
        else fnameLoop fname rest e := rfl
    rw [hstep, List.find?_cons]
    cases isSubstr (pyLower m.filename_from_data).data fname
    · simpa using ih
    · simp

/-- A record whose lower-cased title-underscore pattern occurs in
`"Song_take1.wav"` but whose `filename_from_data` does not. -/
def recSong : TrackMetadata :=
  ⟨"zzz", "Song", "ProgA", "120", "Cmaj", ["W1"], ["P1"]⟩

/-- A record matched by `filename_from_data` but not by title pattern. -/
def recOther : TrackMetadata :=
  ⟨"song_take", "NoMatch", "ProgB", "90", "Dmin", [], []⟩

/-- An entry with every field blank, as built for a fresh WAV file. -/
def blankEntry : EntryMeta := ⟨"", "", "", "", "", "", ""⟩

/-- C7: a row with fewer than 34 cells contributes nothing to the decode
result — removing it changes nothing — and (the decoders being total
functions) no error is raised; the same gate acts identically in the
row loop shared by both paths, in any sheet of the Excel path, and in the
CSV path after its header skip. -/
theorem rowCountGate (r : List Cell) (h : r.length < 34) :
    (∀ pre post : List (List Cell),
      parseRowsLoop (pre ++ r :: post) = parseRowsLoop (pre ++ post)) ∧
    (∀ (sheetsA sheetsB : List (List (List Cell))) (pre post : List (List Cell)),
      parseExcel (sheetsA ++ (pre ++ r :: post) :: sheetsB) =
        parseExcel (sheetsA ++ (pre ++ post) :: sheetsB)) ∧
    (∀ (hdr : List Cell) (pre post : List (List Cell)),
      parseCsv (hdr :: (pre ++ r :: post)) = parseCsv (hdr :: (pre ++ post))) := by
  have key : ∀ pre post : List (List Cell),
      parseRowsLoop (pre ++ r :: post) = parseRowsLoop (pre ++ post) := by
    intro pre post
    induction pre with
    | nil => simp [parseRowsLoop, h]
    | cons a t ih =>
      by_cases ha : a.length < 34 <;> simp [parseRowsLoop, ha, ih]
  refine ⟨key, ?_, ?_⟩
  · intro sheetsA sheetsB pre post
    simp [parseExcel, key pre post]
  · intro hdr pre post
    simp [parseCsv, key pre post]

/-- Witness for `rowCountGate`: an empty row between two 34-cell rows is
dropped by the shared row loop. -/
theorem rowCountGate_witness :
    parseRowsLoop ([List.replicate 34 (some "a")] ++
        ([] : List Cell) :: [List.replicate 34 (some "b")]) =
      parseRowsLoop ([List.replicate 34 (some "a")] ++
        [List.replicate 34 (some "b")]) :=
  (rowCountGate [] (by decide)).1 [List.replicate 34 (some "a")]
    [List.replicate 34 (some "b")]

/-- C8: a writer entry is produced exactly when one of first/middle/last
is non-empty and a publisher entry exactly when the name is non-empty; the
value is the space-join of the name part and the `(PRO)`, `[CAE]`,
`Share%` components, each omitted when its source field is empty — checked
in general form and on the claim's two concrete examples. -/
theorem writerPublisherFormat :
    (∀ f m l p c s, formatWriter f m l p c s =
      (if f = "" ∧ m = "" ∧ l = "" then none
       else some (String.intercalate " " (List.filterMap id
         [some (pyStrip (String.intercalate " "
            ([f, m, l].filter (fun x => x ≠ "")))),
          if p = "" then none else some ("(" ++ p ++ ")"),
          if c = "" then none else some ("[" ++ c ++ "]"),
          if s = "" then none else some (s ++ "%")])))) ∧
    (∀ n p c s, formatPublisher n p c s =
      (if n = "" then none
       else some (String.intercalate " " (List.filterMap id
         [some n,
          if p = "" then none else some ("(" ++ p ++ ")"),
          if c = "" then none else some ("[" ++ c ++ "]"),
          if s = "" then none else some (s ++ "%")])))) ∧
    formatWriter "Jane" "" "" "ASCAP" "" "50" = some "Jane (ASCAP) 50%" ∧
    formatWriter "" "" "" "ASCAP" "123" "50" = none ∧
    formatPublisher "Acme Pub" "" "123" "" = some "Acme Pub [123]" ∧
    formatPublisher "" "X" "Y" "Z" = none := by
  refine ⟨?_, ?_, by decide, by decide, by decide, by decide⟩
  · intro f m l p c s
    unfold formatWriter
    by_cases hf : f = "" ∧ m = "" ∧ l = ""
    · simp [hf]
    · simp only [hf, if_false]
      by_cases hp : p = "" <;> by_cases hc : c = "" <;>
        by_cases hs : s = "" <;> simp [hp, hc, hs]
  · intro n p c s
    unfold formatPublisher
    by_cases hn : n = ""
    · simp [hn]
    · simp only [hn, if_false]
      by_cases hp : p = "" <;> by_cases hc : c = "" <;>
        by_cases hs : s = "" <;> simp [hp, hc, hs]

/-- C9: per filename the engine assigns the six metadata fields from the
FIRST record (in record order) whose lower-cased `track_title` plus `"_"`
occurs in the lower-cased filename (blank fields when none does, since the
no-match branch returns the reset entry), and independently assigns
`filename_from_data` from the FIRST record whose lower-cased
`filename_from_data` occurs in the filename; the concrete run shows the
two lookups selecting two different records. -/
theorem matchEngine_firstMatch :
    (∀ (records : List TrackMetadata) (prev : EntryMeta)
        (audioFilename : String),
      applyMetadata records prev audioFilename =
        (let fname := (pyLower audioFilename).data
         let e0 : EntryMeta :=
           { prev with trackTitle := "", sourceProgram := "", bpm := "",
                       key := "", composers := "", publishers := "" }
         let e1 :=
           match records.find? (fun m =>
               isSubstr ((pyLower m.track_title) ++ "_").data fname) with
           | some m => updateFromRecord e0 m
           | none => e0
         match records.find? (fun m =>
             isSubstr (pyLower m.filename_from_data).data fname) with
         | some m => { e1 with filenameFromData := m.filename_from_data }
         | none => e1)) ∧
    applyMetadata [recSong, recOther] blankEntry "Song_take1.wav" =
      ⟨"song_take", "Song", "ProgA", "120", "Cmaj", "W1", "P1"⟩ ∧
    recSong ≠ recOther := by
  refine ⟨?_, by decide, by decide⟩
  intro records prev audioFilename
  rw [applyMetadata, titleLoop_eq_find, fnameLoop_eq_find]

/-- C10: a record with empty `track_title` yields the pattern `"_"` and so
captures every filename containing an underscore, and a record with empty
`filename_from_data` captures every filename outright; placed first, such
a record shadows all later records on every filename it matches. -/
theorem emptyPatternShadowing (r : TrackMetadata)
    (rest : List TrackMetadata) (e : EntryMeta) (fname : List Char)
    (ht : r.track_title = "") (hf : r.filename_from_data = "") :
    titleLoop fname (r :: rest) e =
      (if '_' ∈ fname then updateFromRecord e r
       else titleLoop fname rest e) ∧
    fnameLoop fname (r :: rest) e =
      { e with filenameFromData := r.filename_from_data } := by
  constructor
  · have hp : ((pyLower r.track_title) ++ "_").data = ['_'] := by
      rw [ht]; rfl
    have hstep : titleLoop fname (r :: rest) e =
        if isSubstr ((pyLower r.track_title) ++ "_").data fname then
          updateFromRecord e r
        else titleLoop fname rest e := rfl
    rw [hstep, hp]
    by_cases hu : '_' ∈ fname
    · rw [if_pos ((isSubstr_singleton '_' fname).mpr hu), if_pos hu]
    · rw [if_neg (fun hb => hu ((isSubstr_singleton '_' fname).mp hb)),
        if_neg hu]
  · have hp : (pyLower r.filename_from_data).data = [] := by
      rw [hf]; rfl
    have hstep : fnameLoop fname (r :: rest) e =
        if isSubstr (pyLower r.filename_from_data).data fname then
          { e with filenameFromData := r.filename_from_data }
        else fnameLoop fname rest e := rfl
    rw [hstep, hp, if_pos (isSubstr_nil fname)]

/-- A record that is blank in both matching fields. -/
def recBlank : TrackMetadata := ⟨"", "", "", "", "", [], []⟩

/-- Witness for `emptyPatternShadowing`: the blank record placed before
`recSong` captures the underscore filename in the title loop and every
filename in the filename loop. -/
theorem emptyPatternShadowing_witness :
    (titleLoop ['a', '_', 'b'] (recBlank :: [recSong]) blankEntry =
      (if '_' ∈ ['a', '_', 'b'] then updateFromRecord blankEntry recBlank
       else titleLoop ['a', '_', 'b'] [recSong] blankEntry)) ∧
    fnameLoop ['x'] (recBlank :: [recSong]) blankEntry =
      { blankEntry with filenameFromData := recBlank.filename_from_data } :=
  ⟨(emptyPatternShadowing recBlank [recSong] blankEntry ['a', '_', 'b']
      rfl rfl).1,
   (emptyPatternShadowing recBlank [recSong] blankEntry ['x'] rfl rfl).2⟩

end WavEmbedder
